import Mathlib

/-!
Shallow embedding of the lazylinear terminal dashboard (Go sources
`internal/api/client.go` and `internal/ui/ui.go`) together with proofs
about its filtering, sorting and state-transition behaviour.

Go strings are modelled as Lean `String`s; the character-level operations
(`strings.ToLower`, `strings.Contains`, `strings.Fields`,
`strings.TrimSpace`) are modelled on the underlying `List Char`, which is
exact for the ASCII data the program manipulates (byte indexing such as
`parts[0][0]` becomes taking the first character).  The remote GraphQL
call and the clipboard shell-out are external collaborators; they enter
the embedding as explicit parameters carrying their result
(`Except String _`), with `Option` marking the `client == nil` case.
-/

namespace LazyLinear

/-- Nested `state { name }` record of an Issue (Go: anonymous struct). -/
structure IssueState where
  name : String
deriving DecidableEq

/-- Nested `assignee { id name }` record of an Issue.  A JSON `null`
assignee decodes to the zero value, i.e. both strings empty. -/
structure Assignee where
  id : String
  name : String
deriving DecidableEq

/-- Nested `user { name }` record of a Comment. -/
structure CommentUser where
  name : String
deriving DecidableEq

/-- Comment on an issue (Go: `api.Comment`). -/
structure Comment where
  body : String
  createdAt : String
  user : CommentUser
deriving DecidableEq

/-- Linear issue (Go: `api.Issue`).  The wire-level `comments { nodes }`
wrapper is flattened to the list of nodes. -/
structure Issue where
  id : String
  identifier : String
  title : String
  description : String
  url : String
  branchName : String
  state : IssueState
  assignee : Assignee
  comments : List Comment
deriving DecidableEq

/-- Go zero value of `api.Issue`: every string empty, no comments. -/
def Issue.zero : Issue :=
  { id := "", identifier := "", title := "", description := "", url := ""
    branchName := "", state := ⟨""⟩, assignee := ⟨"", ""⟩, comments := [] }

/-- Linear team (Go: `api.Team`). -/
structure Team where
  id : String
  name : String
  key : String
deriving DecidableEq

/-- Fixed status rank used by `GetIssues` (Go: the `stateOrder` map,
with missing keys mapped to 999). -/
def stateRank (name : String) : Nat :=
  if name = "In Review" then 0
  else if name = "In Progress" then 1
  else if name = "Blocked" then 2
  else if name = "Todo" then 3
  else if name = "Backlog" then 4
  else 999

/-- Stable insertion of an issue into a list ordered by `stateRank`:
the element is placed before the first entry of greater-or-equal rank,
so that among equal ranks earlier (fetch-order) elements stay first. -/
def insertByRank (x : Issue) : List Issue → List Issue
  | [] => [x]
  | y :: ys =>
    if stateRank x.state.name ≤ stateRank y.state.name then x :: y :: ys
    else y :: insertByRank x ys

/-- Stable sort by `stateRank` (Go: `sort.SliceStable(issues, ...)` with
comparator `orderI < orderJ`; a stable sort is extensionally determined
by its comparator, modelled here as stable insertion sort). -/
def sortIssuesByState : List Issue → List Issue
  | [] => []
  | x :: xs => insertByRank x (sortIssuesByState xs)

/-- Go: `Client.GetIssues`.  The GraphQL round trip is the collaborator;
its decoded outcome is the argument.  On success the decoded issues are
stably sorted by `stateRank` before being returned. -/
def GetIssues (resp : Except String (List Issue)) : Except String (List Issue) :=
  match resp with
  | Except.error e => Except.error e
  | Except.ok ns => Except.ok (sortIssuesByState ns)

/-- Unicode-naive lowercasing of a character list (Go: `strings.ToLower`,
which on ASCII input agrees with per-character lowercasing). -/
def lowerChars (l : List Char) : List Char := l.map Char.toLower

/-- Character-list prefix test, structural so that it kernel-reduces. -/
def isPrefixChars : List Char → List Char → Bool
  | [], _ => true
  | _ :: _, [] => false
  | a :: as, b :: bs => a = b && isPrefixChars as bs

/-- Substring containment on character lists (Go: `strings.Contains`):
`needle` occurs contiguously inside `hay`. -/
def containsChars (hay needle : List Char) : Bool :=
  match hay with
  | [] => isPrefixChars needle []
  | _ :: rest => isPrefixChars needle hay || containsChars rest needle

/-- Case-insensitive containment used by the search filter (Go:
`strings.Contains(strings.ToLower(title), strings.ToLower(search))`). -/
def containsLower (title search : String) : Bool :=
  containsChars (lowerChars title.data) (lowerChars search.data)

/-- Accumulator pass of `fieldsChars`; `acc` holds the current token
reversed. -/
def fieldsAux : List Char → List Char → List (List Char)
  | acc, [] => if acc = [] then [] else [acc.reverse]
  | acc, c :: rest =>
    if c.isWhitespace then
      if acc = [] then fieldsAux [] rest else acc.reverse :: fieldsAux [] rest
    else fieldsAux (c :: acc) rest

/-- Whitespace-separated tokens of a character list, empties dropped
(Go: `strings.Fields`). -/
def fieldsChars (l : List Char) : List (List Char) := fieldsAux [] l

/-- Drop leading whitespace characters. -/
def dropLeading : List Char → List Char
  | [] => []
  | c :: rest => if c.isWhitespace then dropLeading rest else c :: rest

/-- Trim whitespace at both ends (Go: `strings.TrimSpace`). -/
def trimStr (s : String) : String :=
  ⟨(dropLeading (dropLeading s.data).reverse).reverse⟩

/-- The mutable UI state (Go: `ui.UI`, without the `gui`/`client`
handles, which are external collaborators). -/
structure ViewState where
  issues : List Issue
  allIssues : List Issue
  selectedIssue : Int
  showHelp : Bool
  showSearch : Bool
  searchString : String
  assignedToMe : Bool
  viewerID : String
  currentView : Int
  views : List String
  teams : List Team
  currentTeam : Int
deriving DecidableEq

/-- The fixed status-view list installed by `NewUI`. -/
def initialViews : List String :=
  ["All", "In Review", "In Progress", "Blocked", "Todo", "Backlog"]

/-- Name of the current status view (Go: `ui.views[ui.currentView]`).
Out-of-range indexing, a Go panic, is modelled as the empty name; every
state the program constructs keeps the index in range. -/
def currentViewName (s : ViewState) : String :=
  s.views.getD s.currentView.toNat ""

/-- Core of `UI.filterIssues`: the loop over `allIssues` with its three
`continue` guards (assignee, status view, search). -/
def filterCore (assignedToMe : Bool) (viewerID vn search : String) :
    List Issue → List Issue
  | [] => []
  | i :: rest =>
    if assignedToMe = true ∧ i.assignee.id ≠ viewerID then
      filterCore assignedToMe viewerID vn search rest
    else if vn ≠ "All" ∧ i.state.name ≠ vn then
      filterCore assignedToMe viewerID vn search rest
    else if search ≠ "" ∧ containsLower i.title search = false then
      filterCore assignedToMe viewerID vn search rest
    else i :: filterCore assignedToMe viewerID vn search rest

/-- Go: `UI.filterIssues`. -/
def filterIssues (s : ViewState) : List Issue :=
  filterCore s.assignedToMe s.viewerID (currentViewName s) s.searchString s.allIssues

/-- Predicate form of the three filters, for stating claims: an issue is
kept iff it passes the assignee, status-view and search filters. -/
def keepIssue (assignedToMe : Bool) (viewerID vn search : String) (i : Issue) : Prop :=
  (assignedToMe = true → i.assignee.id = viewerID) ∧
  (vn ≠ "All" → i.state.name = vn) ∧
  (search ≠ "" → containsLower i.title search = true)

instance (a : Bool) (v n q : String) (i : Issue) : Decidable (keepIssue a v n q i) := by
  unfold keepIssue
  infer_instance

/-- Placeholder issue synthesised on fetch failure (Go:
`api.Issue{Title: fmt.Sprintf("Error loading issues: %v", err)}`). -/
def errorIssue (e : String) : Issue :=
  { Issue.zero with title := "Error loading issues: " ++ e }

/-- Go: `UI.refreshIssues`.  `fetch` is the collaborator outcome of
`client.GetIssues` (`none` models a nil client, where no fetch happens);
afterwards the derived list is recomputed and the selection cleared. -/
def refreshIssues (fetch : Option (Except String (List Issue))) (s : ViewState) : ViewState :=
  let s1 :=
    match fetch with
    | none => s
    | some (Except.ok is) => { s with allIssues := is }
    | some (Except.error e) => { s with allIssues := [errorIssue e] }
  { s1 with issues := filterIssues s1, selectedIssue := -1 }

/-- Go: `UI.toggleAssigned`. -/
def toggleAssigned (s : ViewState) : ViewState :=
  let s1 := { s with assignedToMe := !s.assignedToMe }
  { s1 with issues := filterIssues s1, selectedIssue := -1 }

/-- Go: `UI.closeSearch` (apply-search).  The handler is bound to the
search view, so the view argument is non-nil and its buffer is the edit
text. -/
def closeSearch (buffer : String) (s : ViewState) : ViewState :=
  let s1 := { s with searchString := trimStr buffer }
  let s2 := { s1 with issues := filterIssues s1, selectedIssue := -1 }
  { s2 with showSearch := false }

/-- Go: `UI.cancelSearch`. -/
def cancelSearch (s : ViewState) : ViewState :=
  let s1 := { s with searchString := "" }
  { s1 with issues := filterIssues s1, selectedIssue := -1, showSearch := false }

/-- Go: `UI.prevView` (cyclic decrement, then recompute and reset). -/
def prevView (s : ViewState) : ViewState :=
  let c := s.currentView - 1
  let c := if c < 0 then (s.views.length : Int) - 1 else c
  let s1 := { s with currentView := c }
  { s1 with issues := filterIssues s1, selectedIssue := -1 }

/-- Go: `UI.nextView` (cyclic increment, then recompute and reset). -/
def nextView (s : ViewState) : ViewState :=
  let c := s.currentView + 1
  let c := if c ≥ (s.views.length : Int) then 0 else c
  let s1 := { s with currentView := c }
  { s1 with issues := filterIssues s1, selectedIssue := -1 }

/-- Go: `UI.prevTeam`: no-op on an empty roster, otherwise cyclic
decrement followed by a full `refreshIssues`. -/
def prevTeam (fetch : Option (Except String (List Issue))) (s : ViewState) : ViewState :=
  if s.teams.length = 0 then s
  else
    let c := s.currentTeam - 1
    let c := if c < 0 then (s.teams.length : Int) - 1 else c
    refreshIssues fetch { s with currentTeam := c }

/-- Go: `UI.nextTeam`: no-op on an empty roster, otherwise cyclic
increment followed by a full `refreshIssues`. -/
def nextTeam (fetch : Option (Except String (List Issue))) (s : ViewState) : ViewState :=
  if s.teams.length = 0 then s
  else
    let c := s.currentTeam + 1
    let c := if c ≥ (s.teams.length : Int) then 0 else c
    refreshIssues fetch { s with currentTeam := c }

/-- Go: `UI.copyURL`.  `clip` is the clipboard collaborator
(`copyToClipboard`); the pair returns the state after the handler and
the outcome handed back to the event loop. -/
def copyURL (clip : String → Except String Unit) (s : ViewState) :
    ViewState × Except String Unit :=
  if 0 ≤ s.selectedIssue ∧ s.selectedIssue < (s.issues.length : Int) then
    if (s.issues.getD s.selectedIssue.toNat Issue.zero).url ≠ "" then
      (s, clip (s.issues.getD s.selectedIssue.toNat Issue.zero).url)
    else (s, Except.ok ())
  else (s, Except.ok ())

/-- Go: `UI.copyBranch`, identical to `copyURL` with the branch name. -/
def copyBranch (clip : String → Except String Unit) (s : ViewState) :
    ViewState × Except String Unit :=
  if 0 ≤ s.selectedIssue ∧ s.selectedIssue < (s.issues.length : Int) then
    if (s.issues.getD s.selectedIssue.toNat Issue.zero).branchName ≠ "" then
      (s, clip (s.issues.getD s.selectedIssue.toNat Issue.zero).branchName)
    else (s, Except.ok ())
  else (s, Except.ok ())

/-- Case split of the initials computation on the token list (Go: the
branches on `len(parts)` inside the rendering loop); byte indexing such
as `parts[0][0]` is modelled at character level. -/
def initialsFromParts (parts : List (List Char)) : String :=
  if parts.length ≥ 2 then
    ⟨(parts.getD 0 []).take 1 ++ (parts.getD 1 []).take 1⟩
  else if parts.length = 1 then
    if (parts.getD 0 []).length ≥ 2 then ⟨(parts.getD 0 []).take 2⟩ else ⟨parts.getD 0 []⟩
  else "--"

/-- Two-letter initials computed by `UI.layout` for each listed issue:
"--" when the assignee name is empty (absent assignee), otherwise
derived from the whitespace tokens of the display name. -/
def initialsOf (a : Assignee) : String :=
  if a.name ≠ "" then initialsFromParts (fieldsChars a.name.data) else "--"

/-- State as installed by `NewUI` before any fetch data arrives: no
issues, no teams, nothing selected, all filters off. -/
def baseState : ViewState :=
  { issues := [], allIssues := [], selectedIssue := -1, showHelp := false
    showSearch := false, searchString := "", assignedToMe := false
    viewerID := "", currentView := 0, views := initialViews, teams := []
    currentTeam := 0 }

lemma filterCore_eq_filter (a : Bool) (v n q : String) (l : List Issue) :
    filterCore a v n q l = l.filter (fun i => decide (keepIssue a v n q i)) := by
  induction l with
  | nil => rfl
  | cons i rest ih =>
    by_cases h1 : a = true ∧ i.assignee.id ≠ v
    · have hk : ¬ keepIssue a v n q i := fun hk => h1.2 (hk.1 h1.1)
      simp only [filterCore, List.filter_cons]
      rw [if_pos h1, decide_eq_false hk, if_neg Bool.false_ne_true, ih]
    · by_cases h2 : n ≠ "All" ∧ i.state.name ≠ n
      · have hk : ¬ keepIssue a v n q i := fun hk => h2.2 (hk.2.1 h2.1)
        simp only [filterCore, List.filter_cons]
        rw [if_neg h1, if_pos h2, decide_eq_false hk, if_neg Bool.false_ne_true, ih]
      · by_cases h3 : q ≠ "" ∧ containsLower i.title q = false
        · have hk : ¬ keepIssue a v n q i := by
            intro hk
            have := hk.2.2 h3.1
            rw [h3.2] at this
            exact Bool.false_ne_true this
          simp only [filterCore, List.filter_cons]
          rw [if_neg h1, if_neg h2, if_pos h3, decide_eq_false hk,
            if_neg Bool.false_ne_true, ih]
        · have hk : keepIssue a v n q i := by
            refine ⟨fun ha => ?_, fun hn => ?_, fun hq => ?_⟩
            · by_contra hid
              exact h1 ⟨ha, hid⟩
            · by_contra hst
              exact h2 ⟨hn, hst⟩
            · by_contra hc
              exact h3 ⟨hq, by simpa using hc⟩
          simp only [filterCore, List.filter_cons]
          rw [if_neg h1, if_neg h2, if_neg h3, decide_eq_true hk, if_pos rfl, ih]

lemma filterIssues_eq_filter (s : ViewState) :
    filterIssues s = s.allIssues.filter
      (fun i => decide (keepIssue s.assignedToMe s.viewerID (currentViewName s) s.searchString i)) :=
  filterCore_eq_filter ..

/-- Claim C1: for every state, `filterIssues` returns an order-preserving
subsequence of `allIssues`, and an issue is retained exactly when it
passes the assignee filter (if assigned-to-me is on, its assignee id
equals the viewer id), the status filter (if the current view is not
"All", its state name equals the view name) and the search filter (if
the search text is non-empty, its lowercased title contains the
lowercased search text). -/
theorem claim1_filter_characterization (s : ViewState) :
    List.Sublist (filterIssues s) s.allIssues ∧
    ∀ i : Issue, i ∈ filterIssues s ↔
      i ∈ s.allIssues ∧
        (s.assignedToMe = true → i.assignee.id = s.viewerID) ∧
        (currentViewName s ≠ "All" → i.state.name = currentViewName s) ∧
        (s.searchString ≠ "" → containsLower i.title s.searchString = true) := by
  rw [filterIssues_eq_filter]
  constructor
  · exact List.filter_sublist s.allIssues
  · intro i
    rw [List.mem_filter, decide_eq_true_eq]
    exact Iff.rfl

/-- Issue with no assignee (Go zero value: empty id and name). -/
def unassignedIssue : Issue := { Issue.zero with title := "orphan task" }

/-- State with assigned-to-me on and an empty viewer id (as happens when
`GetViewer` fails during `NewUI`). -/
def emptyViewerState : ViewState :=
  { baseState with allIssues := [unassignedIssue], assignedToMe := true, viewerID := "" }

/-- State with assigned-to-me on and a non-empty viewer id. -/
def knownViewerState : ViewState :=
  { baseState with
    allIssues := [unassignedIssue]
    assignedToMe := true
    viewerID := "viewer-1" }

/-- Claim C2 is false as stated: with an empty viewer id (e.g. when
`GetViewer` failed), an unassigned issue has `assignee.id = "" = viewerID`
and therefore survives the assignee filter even though `assignedToMe`
is on. -/
theorem claim2_counterexample :
    unassignedIssue.assignee.id = "" ∧
    emptyViewerState.assignedToMe = true ∧
    unassignedIssue ∈ filterIssues emptyViewerState := by
  refine ⟨rfl, rfl, ?_⟩
  decide

/-- Claim C2 amended: when `assignedToMeOnly` is true, an issue with no
assignee is dropped provided the viewer id is non-empty; with an empty
viewer id the Go zero-value comparison `"" != ""` fails and the issue is
retained by the assignee filter. -/
theorem claim2_amended (s : ViewState) (i : Issue)
    (ha : s.assignedToMe = true) (hid : i.assignee.id = "") (hv : s.viewerID ≠ "") :
    i ∉ filterIssues s := by
  rw [filterIssues_eq_filter, List.mem_filter]
  rintro ⟨-, hkeep⟩
  rw [decide_eq_true_eq] at hkeep
  have h := hkeep.1 ha
  rw [hid] at h
  exact hv h.symm

theorem claim2_amended_witness : unassignedIssue ∉ filterIssues knownViewerState :=
  claim2_amended _ _ rfl rfl (by decide)

/-- Claim C8: copy-url and copy-branch leave the whole `ViewState`
unchanged (hence every one of its fields), whatever the clipboard
collaborator returns. -/
theorem claim8_copy_frame (clip : String → Except String Unit) (s : ViewState) :
    (copyURL clip s).1 = s ∧ (copyBranch clip s).1 = s := by
  constructor
  · unfold copyURL
    split_ifs <;> rfl
  · unfold copyBranch
    split_ifs <;> rfl

/-- Claim C10: toggling assigned-to-me twice restores the flag and makes
the derived list the single recomputation of the filters on the original
state (all other filter inputs are untouched by the toggle). -/
theorem claim10_double_toggle (s : ViewState) :
    (toggleAssigned (toggleAssigned s)).assignedToMe = s.assignedToMe ∧
    (toggleAssigned (toggleAssigned s)).issues = filterIssues s := by
  constructor
  · show (!(!s.assignedToMe)) = s.assignedToMe
    exact Bool.not_not s.assignedToMe
  · show filterCore (!(!s.assignedToMe)) s.viewerID
        (s.views.getD s.currentView.toNat "") s.searchString s.allIssues =
      filterIssues s
    rw [Bool.not_not]
    rfl

/-- Issues of a given rank, in their original order. -/
def blockOf (k : Nat) (l : List Issue) : List Issue :=
  l.filter (fun i => decide (stateRank i.state.name = k))

/-- The unique stable-by-rank ordering of a list: the rank-0 issues in
fetch order, then rank 1, 2, 3, 4 and finally the unranked (999) ones. -/
def rankBlocks (l : List Issue) : List Issue :=
  blockOf 0 l ++ (blockOf 1 l ++ (blockOf 2 l ++ (blockOf 3 l ++ (blockOf 4 l ++ blockOf 999 l))))

lemma stateRank_cases (s : String) :
    stateRank s = 0 ∨ stateRank s = 1 ∨ stateRank s = 2 ∨ stateRank s = 3 ∨
      stateRank s = 4 ∨ stateRank s = 999 := by
  unfold stateRank
  split_ifs <;> simp

lemma mem_blockOf {y : Issue} {k : Nat} {l : List Issue} (h : y ∈ blockOf k l) :
    stateRank y.state.name = k := by
  rw [blockOf, List.mem_filter, decide_eq_true_eq] at h
  exact h.2

lemma blockOf_cons (k : Nat) (x : Issue) (l : List Issue) :
    blockOf k (x :: l) =
      if stateRank x.state.name = k then x :: blockOf k l else blockOf k l := by
  rw [blockOf, List.filter_cons]
  by_cases h : stateRank x.state.name = k
  · rw [decide_eq_true h, if_pos rfl, if_pos h]
    rfl
  · rw [decide_eq_false h, if_neg Bool.false_ne_true, if_neg h]
    rfl

lemma insertByRank_append {x : Issue} {A : List Issue} (B : List Issue)
    (h : ∀ y ∈ A, stateRank y.state.name < stateRank x.state.name) :
    insertByRank x (A ++ B) = A ++ insertByRank x B := by
  induction A with
  | nil => rfl
  | cons a A ih =>
    have ha := h a (List.mem_cons_self a A)
    rw [List.cons_append, insertByRank, if_neg (by omega), List.cons_append,
      ih (fun y hy => h y (List.mem_cons_of_mem a hy))]

lemma insertByRank_cons_of_le {x : Issue} {B : List Issue}
    (h : ∀ y ∈ B, stateRank x.state.name ≤ stateRank y.state.name) :
    insertByRank x B = x :: B := by
  cases B with
  | nil => rfl
  | cons b B => rw [insertByRank, if_pos (h b (List.mem_cons_self b B))]

/-- Stable insertion sort by rank produces exactly the rank blocks in
order: equal-rank issues keep their relative fetch order. -/
lemma sortIssuesByState_eq_rankBlocks (l : List Issue) :
    sortIssuesByState l = rankBlocks l := by
  induction l with
  | nil => rfl
  | cons x xs ih =>
    rw [sortIssuesByState, ih]
    rcases stateRank_cases x.state.name with h | h | h | h | h | h
    · rw [rankBlocks, rankBlocks, blockOf_cons, if_pos h, blockOf_cons, if_neg (by omega),
        blockOf_cons, if_neg (by omega), blockOf_cons, if_neg (by omega), blockOf_cons,
        if_neg (by omega), blockOf_cons, if_neg (by omega)]
      rw [insertByRank_cons_of_le (fun y hy => by omega)]
      simp
    · rw [rankBlocks, rankBlocks, blockOf_cons, if_neg (by omega), blockOf_cons, if_pos h,
        blockOf_cons, if_neg (by omega), blockOf_cons, if_neg (by omega), blockOf_cons,
        if_neg (by omega), blockOf_cons, if_neg (by omega)]
      rw [insertByRank_append _ (fun y hy => by have := mem_blockOf hy; omega)]
      rw [insertByRank_cons_of_le (fun y hy => by
        simp only [List.mem_append] at hy
        rcases hy with hy | hy | hy | hy | hy <;> · have := mem_blockOf hy; omega)]
      simp
    · rw [rankBlocks, rankBlocks, blockOf_cons, if_neg (by omega), blockOf_cons,
        if_neg (by omega), blockOf_cons, if_pos h, blockOf_cons, if_neg (by omega),
        blockOf_cons, if_neg (by omega), blockOf_cons, if_neg (by omega)]
      rw [insertByRank_append _ (fun y hy => by have := mem_blockOf hy; omega)]
      rw [insertByRank_append _ (fun y hy => by have := mem_blockOf hy; omega)]
      rw [insertByRank_cons_of_le (fun y hy => by
        simp only [List.mem_append] at hy
        rcases hy with hy | hy | hy | hy <;> · have := mem_blockOf hy; omega)]
      simp
    · rw [rankBlocks, rankBlocks, blockOf_cons, if_neg (by omega), blockOf_cons,
        if_neg (by omega), blockOf_cons, if_neg (by omega), blockOf_cons, if_pos h,
        blockOf_cons, if_neg (by omega), blockOf_cons, if_neg (by omega)]
      rw [insertByRank_append _ (fun y hy => by have := mem_blockOf hy; omega)]
      rw [insertByRank_append _ (fun y hy => by have := mem_blockOf hy; omega)]
      rw [insertByRank_append _ (fun y hy => by have := mem_blockOf hy; omega)]
      rw [insertByRank_cons_of_le (fun y hy => by
        simp only [List.mem_append] at hy
        rcases hy with hy | hy | hy <;> · have := mem_blockOf hy; omega)]
      simp
    · rw [rankBlocks, rankBlocks, blockOf_cons, if_neg (by omega), blockOf_cons,
        if_neg (by omega), blockOf_cons, if_neg (by omega), blockOf_cons, if_neg (by omega),
        blockOf_cons, if_pos h, blockOf_cons, if_neg (by omega)]
      rw [insertByRank_append _ (fun y hy => by have := mem_blockOf hy; omega)]
      rw [insertByRank_append _ (fun y hy => by have := mem_blockOf hy; omega)]
      rw [insertByRank_append _ (fun y hy => by have := mem_blockOf hy; omega)]
      rw [insertByRank_append _ (fun y hy => by have := mem_blockOf hy; omega)]
      rw [insertByRank_cons_of_le (fun y hy => by
        simp only [List.mem_append] at hy
        rcases hy with hy | hy <;> · have := mem_blockOf hy; omega)]
      simp
    · rw [rankBlocks, rankBlocks, blockOf_cons, if_neg (by omega), blockOf_cons,
        if_neg (by omega), blockOf_cons, if_neg (by omega), blockOf_cons, if_neg (by omega),
        blockOf_cons, if_neg (by omega), blockOf_cons, if_pos h]
      rw [insertByRank_append _ (fun y hy => by have := mem_blockOf hy; omega)]
      rw [insertByRank_append _ (fun y hy => by have := mem_blockOf hy; omega)]
      rw [insertByRank_append _ (fun y hy => by have := mem_blockOf hy; omega)]
      rw [insertByRank_append _ (fun y hy => by have := mem_blockOf hy; omega)]
      rw [insertByRank_append _ (fun y hy => by have := mem_blockOf hy; omega)]
      rw [insertByRank_cons_of_le (fun y hy => by have := mem_blockOf hy; omega)]

/-- Issue with only id, title and status set, used for concrete runs. -/
def mkIssue (id title stateName : String) : Issue :=
  { Issue.zero with id := id, title := title, state := ⟨stateName⟩ }

/-- Decoded fetch-order list with statuses Todo, Blocked, Todo, In Review
(ids record the fetch order). -/
def fetchExample : List Issue :=
  [mkIssue "1" "first todo" "Todo", mkIssue "2" "blocked one" "Blocked",
    mkIssue "3" "second todo" "Todo", mkIssue "4" "review me" "In Review"]

/-- Claim C3: on a successfully decoded response, `GetIssues` returns the
issues stably sorted by the fixed status rank — rank blocks (In Review,
In Progress, Blocked, Todo, Backlog, then unranked-999) concatenated in
order, each block keeping the original fetch order — and on the concrete
fetch order Todo, Blocked, Todo, In Review it returns In Review,
Blocked, Todo, Todo with the two Todo issues (ids 1 and 3) still in
fetch order. -/
theorem claim3_stable_sort :
    (∀ l : List Issue, GetIssues (Except.ok l) = Except.ok (rankBlocks l)) ∧
    GetIssues (Except.ok fetchExample) =
      Except.ok [mkIssue "4" "review me" "In Review", mkIssue "2" "blocked one" "Blocked",
        mkIssue "1" "first todo" "Todo", mkIssue "3" "second todo" "Todo"] := by
  constructor
  · intro l
    rw [GetIssues, sortIssuesByState_eq_rankBlocks]
  · exact congrArg Except.ok (by decide)

/-- Claim C4 is false as stated: on an empty team roster, `nextTeam` and
`prevTeam` return before touching the state, so a previously set
selection survives them. -/
theorem claim4_counterexample :
    (nextTeam none { baseState with selectedIssue := 3 }).selectedIssue ≠ -1 ∧
    (prevTeam none { baseState with selectedIssue := 3 }).selectedIssue ≠ -1 := by
  constructor <;> decide

/-- Claim C4 amended: refresh, toggle-assigned, apply-search,
cancel-search, prev-view and next-view always reset the selection to the
sentinel -1; prev-team and next-team do so provided the team roster is
non-empty (on an empty roster they are complete no-ops). -/
theorem claim4_amended (fetch : Option (Except String (List Issue))) (buffer : String)
    (s : ViewState) :
    (refreshIssues fetch s).selectedIssue = -1 ∧
    (toggleAssigned s).selectedIssue = -1 ∧
    (closeSearch buffer s).selectedIssue = -1 ∧
    (cancelSearch s).selectedIssue = -1 ∧
    (prevView s).selectedIssue = -1 ∧
    (nextView s).selectedIssue = -1 ∧
    (s.teams ≠ [] →
      (prevTeam fetch s).selectedIssue = -1 ∧ (nextTeam fetch s).selectedIssue = -1) := by
  refine ⟨rfl, rfl, rfl, rfl, rfl, rfl, fun h => ⟨?_, ?_⟩⟩
  · rw [prevTeam, if_neg (fun h0 => h (List.length_eq_zero.mp h0))]
    rfl
  · rw [nextTeam, if_neg (fun h0 => h (List.length_eq_zero.mp h0))]
    rfl

/-- Roster entries for concrete runs. -/
def teamA : Team := ⟨"T1", "Alpha", "A"⟩

def teamB : Team := ⟨"T2", "Beta", "B"⟩

theorem claim4_amended_witness :
    (nextTeam none { baseState with teams := [teamA], selectedIssue := 5 }).selectedIssue = -1 ∧
    (prevTeam none { baseState with teams := [teamA], selectedIssue := 5 }).selectedIssue = -1 := by
  have h := claim4_amended none "" { baseState with teams := [teamA], selectedIssue := 5 }
  exact ⟨(h.2.2.2.2.2.2 (by decide)).2, (h.2.2.2.2.2.2 (by decide)).1⟩

lemma filterCore_no_active (v : String) (l : List Issue) :
    filterCore false v "All" "" l = l := by
  induction l with
  | nil => rfl
  | cons i rest ih =>
    rw [filterCore, if_neg (fun hc => Bool.false_ne_true hc.1),
      if_neg (fun hc => hc.1 rfl), if_neg (fun hc => hc.1 rfl), ih]

/-- With the status view at "All", assigned-to-me off and an empty
search text, a failing refresh derives exactly the placeholder list. -/
lemma refresh_error_issues (s : ViewState) (e : String)
    (hview : currentViewName s = "All") (ha : s.assignedToMe = false)
    (hq : s.searchString = "") :
    (refreshIssues (some (Except.error e)) s).issues = [errorIssue e] := by
  show filterCore s.assignedToMe s.viewerID (currentViewName s) s.searchString [errorIssue e]
    = [errorIssue e]
  rw [ha, hq, hview]
  exact filterCore_no_active ..

/-- Claim C6: whenever the fetch collaborator fails during refresh — on
every starting state — `allIssues` becomes the single placeholder issue
whose title contains the error text, `issues` is the recomputation of
the filters over it, and the selection is reset; when additionally no
filter is active (status view "All", assigned-to-me off, empty search
text) the derived list is exactly that one placeholder. -/
theorem claim6_refresh_failure (s : ViewState) (e : String) :
    (refreshIssues (some (Except.error e)) s).allIssues = [errorIssue e] ∧
    (∃ p q' : String, (errorIssue e).title = p ++ e ++ q') ∧
    (refreshIssues (some (Except.error e)) s).issues =
      filterIssues { s with allIssues := [errorIssue e] } ∧
    (refreshIssues (some (Except.error e)) s).selectedIssue = -1 ∧
    (currentViewName s = "All" → s.assignedToMe = false → s.searchString = "" →
      (refreshIssues (some (Except.error e)) s).issues = [errorIssue e]) := by
  refine ⟨rfl, ⟨"Error loading issues: ", "", ?_⟩, rfl, rfl,
    fun hview ha hq => refresh_error_issues s e hview ha hq⟩
  rw [String.append_empty]
  rfl

theorem claim6_witness :
    (refreshIssues (some (Except.error "boom")) baseState).allIssues = [errorIssue "boom"] ∧
    (refreshIssues (some (Except.error "boom")) baseState).selectedIssue = -1 ∧
    (refreshIssues (some (Except.error "boom")) baseState).issues = [errorIssue "boom"] := by
  have h := claim6_refresh_failure baseState "boom"
  exact ⟨h.1, h.2.2.2.1, h.2.2.2.2 (by decide) rfl rfl⟩

/-- Claim C7 is false as stated: after a failing refresh with the status
view on "In Review", the placeholder issue (whose state name is empty)
is filtered out and the derived list handed to the rendering layer is
empty. -/
theorem claim7_counterexample :
    currentViewName { baseState with currentView := 1 } = "In Review" ∧
    (refreshIssues (some (Except.error "boom"))
        { baseState with currentView := 1 }).issues = [] := by
  constructor
  · decide
  · decide

/-- Claim C7 amended: after a failing refresh the derived list is
non-empty — it shows the placeholder — whenever no filter is active
(status view "All", assigned-to-me off, empty search text); an active
filter that the placeholder does not match empties the list instead. -/
theorem claim7_amended (s : ViewState) (e : String)
    (hview : currentViewName s = "All") (ha : s.assignedToMe = false)
    (hq : s.searchString = "") :
    (refreshIssues (some (Except.error e)) s).issues ≠ [] := by
  rw [refresh_error_issues s e hview ha hq]
  exact List.cons_ne_nil _ _

theorem claim7_amended_witness :
    (refreshIssues (some (Except.error "eek")) baseState).issues ≠ [] :=
  claim7_amended baseState "eek" (by decide) rfl rfl

/-- Claim C9: the initials shown for a rendered issue are "--" when the
assignee is absent (empty display name), the first two characters of the
single whitespace token when the name has exactly one, and the first
character of each of the first two tokens when it has at least two. -/
theorem claim9_initials_rendered (i : Issue) :
    (i.assignee.name = "" → initialsOf i.assignee = "--") ∧
    (∀ t : List Char, fieldsChars i.assignee.name.data = [t] →
      initialsOf i.assignee = ⟨t.take 2⟩) ∧
    (∀ t u : List Char, ∀ rest : List (List Char),
      fieldsChars i.assignee.name.data = t :: u :: rest →
      initialsOf i.assignee = ⟨t.take 1 ++ u.take 1⟩) := by
  refine ⟨fun h => ?_, fun t ht => ?_, fun t u rest hr => ?_⟩
  · rw [initialsOf, if_neg (fun hne => hne h)]
  · by_cases hname : i.assignee.name = ""
    · rw [hname] at ht
      exact absurd ht.symm (List.cons_ne_nil t [])
    · rw [initialsOf, if_pos hname, ht, initialsFromParts]
      rw [if_neg (by simp), if_pos (by simp)]
      simp only [List.getD_cons_zero]
      by_cases hlen : t.length ≥ 2
      · rw [if_pos hlen]
      · rw [if_neg hlen, List.take_of_length_le (by omega)]
  · by_cases hname : i.assignee.name = ""
    · rw [hname] at hr
      exact absurd hr.symm (List.cons_ne_nil t (u :: rest))
    · rw [initialsOf, if_pos hname, hr, initialsFromParts]
      rw [if_pos (by simp)]
      simp only [List.getD_cons_zero, List.getD_cons_succ]

/-- Issue whose only populated field is the assignee. -/
def namedIssue (id name : String) : Issue :=
  { Issue.zero with assignee := ⟨id, name⟩ }

theorem claim9_witness :
    initialsOf (namedIssue "u1" "Ada Lovelace").assignee = "AL" ∧
    initialsOf (namedIssue "u2" "Ada").assignee = "Ad" ∧
    initialsOf (namedIssue "u3" "").assignee = "--" := by
  refine ⟨?_, ?_, ?_⟩
  · exact ((claim9_initials_rendered (namedIssue "u1" "Ada Lovelace")).2.2
      "Ada".data "Lovelace".data [] (by decide)).trans (by decide)
  · exact ((claim9_initials_rendered (namedIssue "u2" "Ada")).2.1
      "Ada".data (by decide)).trans (by decide)
  · exact (claim9_initials_rendered (namedIssue "u3" "")).1 rfl

/-- Increment-and-wrap index step shared by `nextView` and `nextTeam`. -/
def wrapNext (n d : Int) : Int := if d + 1 ≥ n then 0 else d + 1

/-- Decrement-and-wrap index step shared by `prevView` and `prevTeam`. -/
def wrapPrev (n d : Int) : Int := if d - 1 < 0 then n - 1 else d - 1

lemma wrapNext_iter (n : Int) (hn : 0 < n) (c : Int) (h0 : 0 ≤ c) (hlt : c < n) :
    ∀ k : Nat, (wrapNext n)^[k] c = (c + k) % n := by
  intro k
  induction k with
  | zero =>
    simp only [Function.iterate_zero, id_eq, Nat.cast_zero, add_zero]
    exact (Int.emod_eq_of_lt h0 hlt).symm
  | succ k ih =>
    rw [Function.iterate_succ_apply', ih, wrapNext]
    have hm0 : 0 ≤ (c + (k : Int)) % n := Int.emod_nonneg _ (by omega)
    have hmlt : (c + (k : Int)) % n < n := Int.emod_lt_of_pos _ hn
    have hdiv : (c + (k : Int)) % n + n * ((c + (k : Int)) / n) = c + (k : Int) :=
      Int.emod_add_ediv _ n
    push_cast
    set m := (c + (k : Int)) % n with hmdef
    set q := (c + (k : Int)) / n with hqdef
    by_cases hcase : m + 1 ≥ n
    · rw [if_pos hcase]
      have hm : m = n - 1 := by omega
      have heq : c + ((k : Int) + 1) = n * (1 + q) := by linear_combination (-1 : Int) * hdiv + hm
      rw [heq, Int.mul_emod_right]
    · rw [if_neg hcase]
      have heq : c + ((k : Int) + 1) = (m + 1) + n * q := by linear_combination (-1 : Int) * hdiv
      rw [heq, Int.add_mul_emod_self_left, Int.emod_eq_of_lt (by omega) (by omega)]

lemma wrapPrev_iter (n : Int) (hn : 0 < n) (c : Int) (h0 : 0 ≤ c) (hlt : c < n) :
    ∀ k : Nat, (wrapPrev n)^[k] c = (c - k) % n := by
  intro k
  induction k with
  | zero =>
    simp only [Function.iterate_zero, id_eq, Nat.cast_zero, sub_zero]
    exact (Int.emod_eq_of_lt h0 hlt).symm
  | succ k ih =>
    rw [Function.iterate_succ_apply', ih, wrapPrev]
    have hm0 : 0 ≤ (c - (k : Int)) % n := Int.emod_nonneg _ (by omega)
    have hmlt : (c - (k : Int)) % n < n := Int.emod_lt_of_pos _ hn
    have hdiv : (c - (k : Int)) % n + n * ((c - (k : Int)) / n) = c - (k : Int) :=
      Int.emod_add_ediv _ n
    push_cast
    set m := (c - (k : Int)) % n with hmdef
    set q := (c - (k : Int)) / n with hqdef
    by_cases hcase : m - 1 < 0
    · rw [if_pos hcase]
      have hm : m = 0 := by omega
      have heq : c - ((k : Int) + 1) = (n - 1) + n * (q - 1) := by
        linear_combination (-1 : Int) * hdiv + hm
      rw [heq, Int.add_mul_emod_self_left, Int.emod_eq_of_lt (by omega) (by omega)]
    · rw [if_neg hcase]
      have heq : c - ((k : Int) + 1) = (m - 1) + n * q := by linear_combination (-1 : Int) * hdiv
      rw [heq, Int.add_mul_emod_self_left, Int.emod_eq_of_lt (by omega) (by omega)]

lemma emod_add_self_eq (c n : Int) (h0 : 0 ≤ c) (hlt : c < n) : (c + n) % n = c := by
  have h : c + n = c + n * 1 := by ring
  rw [h, Int.add_mul_emod_self_left, Int.emod_eq_of_lt h0 hlt]

lemma emod_sub_self_eq (c n : Int) (h0 : 0 ≤ c) (hlt : c < n) : (c - n) % n = c := by
  have h : c - n = c + n * (-1) := by ring
  rw [h, Int.add_mul_emod_self_left, Int.emod_eq_of_lt h0 hlt]

lemma refreshIssues_currentTeam (f : Option (Except String (List Issue))) (s : ViewState) :
    (refreshIssues f s).currentTeam = s.currentTeam := by
  cases f with
  | none => rfl
  | some r => cases r with
    | ok l => rfl
    | error e => rfl

lemma refreshIssues_teams (f : Option (Except String (List Issue))) (s : ViewState) :
    (refreshIssues f s).teams = s.teams := by
  cases f with
  | none => rfl
  | some r => cases r with
    | ok l => rfl
    | error e => rfl

lemma nextView_currentView (s : ViewState) :
    (nextView s).currentView = wrapNext (s.views.length : Int) s.currentView := rfl

lemma nextView_views (s : ViewState) : (nextView s).views = s.views := rfl

lemma prevView_currentView (s : ViewState) :
    (prevView s).currentView = wrapPrev (s.views.length : Int) s.currentView := rfl

lemma prevView_views (s : ViewState) : (prevView s).views = s.views := rfl

lemma nextTeam_currentTeam (f : Option (Except String (List Issue))) (s : ViewState)
    (h : s.teams.length ≠ 0) :
    (nextTeam f s).currentTeam = wrapNext (s.teams.length : Int) s.currentTeam := by
  rw [nextTeam, if_neg h]
  show (refreshIssues f
    { s with currentTeam := wrapNext (s.teams.length : Int) s.currentTeam }).currentTeam = _
  rw [refreshIssues_currentTeam]

lemma nextTeam_teams (f : Option (Except String (List Issue))) (s : ViewState)
    (h : s.teams.length ≠ 0) : (nextTeam f s).teams = s.teams := by
  rw [nextTeam, if_neg h]
  show (refreshIssues f
    { s with currentTeam := wrapNext (s.teams.length : Int) s.currentTeam }).teams = _
  rw [refreshIssues_teams]

lemma prevTeam_currentTeam (f : Option (Except String (List Issue))) (s : ViewState)
    (h : s.teams.length ≠ 0) :
    (prevTeam f s).currentTeam = wrapPrev (s.teams.length : Int) s.currentTeam := by
  rw [prevTeam, if_neg h]
  show (refreshIssues f
    { s with currentTeam := wrapPrev (s.teams.length : Int) s.currentTeam }).currentTeam = _
  rw [refreshIssues_currentTeam]

lemma prevTeam_teams (f : Option (Except String (List Issue))) (s : ViewState)
    (h : s.teams.length ≠ 0) : (prevTeam f s).teams = s.teams := by
  rw [prevTeam, if_neg h]
  show (refreshIssues f
    { s with currentTeam := wrapPrev (s.teams.length : Int) s.currentTeam }).teams = _
  rw [refreshIssues_teams]

lemma nextView_iter (s : ViewState) (k : Nat) :
    (nextView^[k] s).currentView = (wrapNext (s.views.length : Int))^[k] s.currentView ∧
    (nextView^[k] s).views = s.views := by
  induction k with
  | zero => exact ⟨rfl, rfl⟩
  | succ k ih =>
    rw [Function.iterate_succ_apply', Function.iterate_succ_apply']
    refine ⟨?_, ?_⟩
    · rw [nextView_currentView, ih.2, ih.1]
    · rw [nextView_views, ih.2]

lemma prevView_iter (s : ViewState) (k : Nat) :
    (prevView^[k] s).currentView = (wrapPrev (s.views.length : Int))^[k] s.currentView ∧
    (prevView^[k] s).views = s.views := by
  induction k with
  | zero => exact ⟨rfl, rfl⟩
  | succ k ih =>
    rw [Function.iterate_succ_apply', Function.iterate_succ_apply']
    refine ⟨?_, ?_⟩
    · rw [prevView_currentView, ih.2, ih.1]
    · rw [prevView_views, ih.2]

lemma nextTeam_iter (f : Option (Except String (List Issue))) (s : ViewState)
    (h : s.teams ≠ []) (k : Nat) :
    ((nextTeam f)^[k] s).currentTeam = (wrapNext (s.teams.length : Int))^[k] s.currentTeam ∧
    ((nextTeam f)^[k] s).teams = s.teams := by
  induction k with
  | zero => exact ⟨rfl, rfl⟩
  | succ k ih =>
    have hlen : ((nextTeam f)^[k] s).teams.length ≠ 0 := by
      rw [ih.2]
      exact fun h0 => h (List.length_eq_zero.mp h0)
    rw [Function.iterate_succ_apply', Function.iterate_succ_apply']
    refine ⟨?_, ?_⟩
    · rw [nextTeam_currentTeam f _ hlen, ih.2, ih.1]
    · rw [nextTeam_teams f _ hlen, ih.2]

lemma prevTeam_iter (f : Option (Except String (List Issue))) (s : ViewState)
    (h : s.teams ≠ []) (k : Nat) :
    ((prevTeam f)^[k] s).currentTeam = (wrapPrev (s.teams.length : Int))^[k] s.currentTeam ∧
    ((prevTeam f)^[k] s).teams = s.teams := by
  induction k with
  | zero => exact ⟨rfl, rfl⟩
  | succ k ih =>
    have hlen : ((prevTeam f)^[k] s).teams.length ≠ 0 := by
      rw [ih.2]
      exact fun h0 => h (List.length_eq_zero.mp h0)
    rw [Function.iterate_succ_apply', Function.iterate_succ_apply']
    refine ⟨?_, ?_⟩
    · rw [prevTeam_currentTeam f _ hlen, ih.2, ih.1]
    · rw [prevTeam_teams f _ hlen, ih.2]

/-- Claim C5: from a state whose view index is in range (and, for the
team clauses, whose team index is in range of a non-empty roster),
six applications of next-view or prev-view restore the view index,
`len(teams)` applications of next-team or prev-team restore the team
index, and a single application of any of the four keeps the index
inside its range — never negative, never out of bounds. -/
theorem claim5_cyclic_navigation (s : ViewState)
    (fetch : Option (Except String (List Issue)))
    (hv : s.views.length = 6) (h0 : 0 ≤ s.currentView) (h6 : s.currentView < 6) :
    (nextView^[6] s).currentView = s.currentView ∧
    (prevView^[6] s).currentView = s.currentView ∧
    (0 ≤ (nextView s).currentView ∧ (nextView s).currentView < 6) ∧
    (0 ≤ (prevView s).currentView ∧ (prevView s).currentView < 6) ∧
    (0 ≤ s.currentTeam → s.currentTeam < (s.teams.length : Int) →
      (((nextTeam fetch)^[s.teams.length] s).currentTeam = s.currentTeam ∧
        ((prevTeam fetch)^[s.teams.length] s).currentTeam = s.currentTeam ∧
        (0 ≤ (nextTeam fetch s).currentTeam ∧
          (nextTeam fetch s).currentTeam < (s.teams.length : Int)) ∧
        (0 ≤ (prevTeam fetch s).currentTeam ∧
          (prevTeam fetch s).currentTeam < (s.teams.length : Int)))) := by
  have h6' : s.currentView < ((6 : Nat) : Int) := by exact_mod_cast h6
  refine ⟨?_, ?_, ?_, ?_, fun ht0 htlt => ?_⟩
  · rw [(nextView_iter s 6).1, hv,
      wrapNext_iter ((6 : Nat) : Int) (by norm_num) s.currentView h0 h6' 6]
    push_cast
    exact emod_add_self_eq s.currentView 6 h0 h6
  · rw [(prevView_iter s 6).1, hv,
      wrapPrev_iter ((6 : Nat) : Int) (by norm_num) s.currentView h0 h6' 6]
    push_cast
    exact emod_sub_self_eq s.currentView 6 h0 h6
  · rw [nextView_currentView, hv, wrapNext]
    constructor <;> · split_ifs <;> omega
  · rw [prevView_currentView, hv, wrapPrev]
    constructor <;> · split_ifs <;> omega
  · have hne : s.teams ≠ [] := by
      intro he
      rw [he] at htlt
      simp only [List.length_nil, Nat.cast_zero] at htlt
      omega
    have hlen : s.teams.length ≠ 0 := fun h0' => hne (List.length_eq_zero.mp h0')
    have hpos : (0 : Int) < (s.teams.length : Int) := by omega
    refine ⟨?_, ?_, ?_, ?_⟩
    · rw [(nextTeam_iter fetch s hne s.teams.length).1,
        wrapNext_iter _ hpos s.currentTeam ht0 htlt s.teams.length]
      exact emod_add_self_eq s.currentTeam _ ht0 htlt
    · rw [(prevTeam_iter fetch s hne s.teams.length).1,
        wrapPrev_iter _ hpos s.currentTeam ht0 htlt s.teams.length]
      exact emod_sub_self_eq s.currentTeam _ ht0 htlt
    · rw [nextTeam_currentTeam fetch s hlen, wrapNext]
      constructor <;> · split_ifs <;> omega
    · rw [prevTeam_currentTeam fetch s hlen, wrapPrev]
      constructor <;> · split_ifs <;> omega

/-- Navigation-heavy concrete state: view index 2, two teams, team
index 1. -/
def navState : ViewState :=
  { baseState with
    currentView := 2
    teams := [teamA, teamB]
    currentTeam := 1
    selectedIssue := 4 }

theorem claim5_witness :
    (nextView^[6] navState).currentView = 2 ∧
    (prevView^[6] navState).currentView = 2 ∧
    ((nextTeam none)^[2] navState).currentTeam = 1 ∧
    ((prevTeam none)^[2] navState).currentTeam = 1 := by
  have h := claim5_cyclic_navigation navState none (by decide) (by decide) (by decide)
  have ht := h.2.2.2.2 (by decide) (by decide)
  exact ⟨h.1, h.2.1, ht.1, ht.2.1⟩

end LazyLinear
